import Mathlib

/-!
# Verification of `laser.go` (package `tusgo`)

A shallow embedding of the retry executor, the chunk planner, the chunk jobs, the
merge poll loop and the sequential resume uploader of `laser.go`, followed by the
theorems that settle the properties claimed for them.

Conventions of the embedding:

* Go `error` values are modelled by `GoError`: the identity of the value itself and
  the identities reachable through `Unwrap`. `nil` is `none`.
* Collaborators that are not part of `laser.go` (the tus client, the upload stream,
  `io.Copy`, the file system) are parameters: scripted outcomes indexed by call number. Of
  the upload stream only its confirmed offset is followed; what it does with the bytes
  `io.Copy` hands to it is not modelled.
* `int64` arithmetic of the planning loop is wrapped explicitly with `wrapInt64`. Positions
  in `UploadWithRetry` are natural numbers: they are only read, added to and compared, and a
  `Seek` the file refuses is the error `seekErr`.
* Loops without a static bound take a fuel argument and return `none` when it runs out.
* Goroutines: a chunk goroutine reads the shared flag `failed` once, when it starts; the value
  it reads is an input of the model (`flagSeen`), and the `failed.Load()` after `wg.Wait()` is
  true exactly when some goroutine executed `failed.Store(true)`.
-/

namespace Laser

/-! ## Errors -/

/-- Identity of a Go error value occurring in `laser.go`. -/
inductive ErrId where
  /-- The package variable `errAbort`. -/
  | errAbort
  /-- The sentinel `ErrChecksumMismatch`. -/
  | errChecksumMismatch
  /-- A value whose dynamic type implements `net.Error`. -/
  | netError (n : Nat)
  /-- The value built by `fmt.Errorf("超过最大重试次数")` in `retry`. -/
  | retriesExhausted
  /-- The value built by `errors.New("分片上传错误")`. -/
  | chunkUploadFailed
  /-- The value built by `errors.New("too many attempts to upload the data")`. -/
  | tooManyAttempts
  /-- Any other error value. -/
  | other (n : Nat)
  deriving DecidableEq

/-- A non-nil Go error: the value itself and the chain of values reached by `Unwrap`. -/
structure GoError where
  head : ErrId
  unwrap : List ErrId
  deriving DecidableEq

/-- The Go call `errors.Is(e, target)` for a comparable target value. -/
def GoError.is (e : GoError) (target : ErrId) : Bool :=
  e.head == target || e.unwrap.contains target

/-- The Go type assertion `err.(net.Error)`: it inspects the value itself, not its chain. -/
def GoError.isNetError (e : GoError) : Bool :=
  match e.head with
  | .netError _ => true
  | _ => false

/-- The value returned by `fmt.Errorf("超过最大重试次数")`: no `%w` verb, so nothing is wrapped. -/
def errRetriesExhausted : GoError := ⟨.retriesExhausted, []⟩

/-- The value returned by `errors.New("分片上传错误")`. -/
def errChunkUploadFailed : GoError := ⟨.chunkUploadFailed, []⟩

/-- The value returned by `errors.New("too many attempts to upload the data")`. -/
def errTooManyAttempts : GoError := ⟨.tooManyAttempts, []⟩

/-! ## `retry` -/

/-- What one run of `retry` did: the returned error (`none` is `nil`), the state the
operation left behind, how often the operation was invoked and how often `time.Sleep`
was called. -/
structure RetryRun (σ : Type) where
  err : Option GoError
  state : σ
  calls : Nat
  sleeps : Nat

/-- The body of `for i := 0; i < attempts; i++` in `retry`, with `remaining` the number
of iterations still allowed (`attempts - i`). The operation `fn` is a state transformer
returning its error. -/
def retryLoop {σ : Type} (fn : σ → Option GoError × σ) :
    (remaining : Nat) → (calls sleeps : Nat) → σ → RetryRun σ
  | 0, calls, sleeps, s => ⟨some errRetriesExhausted, s, calls, sleeps⟩
  | remaining + 1, calls, sleeps, s =>
    match fn s with
    | (none, s1) => ⟨none, s1, calls + 1, sleeps⟩
    | (some e, s1) =>
      if e.is .errAbort then ⟨some e, s1, calls + 1, sleeps⟩
      else retryLoop fn remaining (calls + 1) (sleeps + 1) s1

/-- The function `retry(attempts int, fn func() error) error`. A non-positive `attempts`
gives no iteration. -/
def retry {σ : Type} (attempts : Int) (fn : σ → Option GoError × σ) (s : σ) : RetryRun σ :=
  retryLoop fn attempts.toNat 0 0 s

/-! ## Chunk planning (`UploadSingleFileByConcat`, step 4) -/

/-- Go `int64` (and, on the 64-bit platforms modelled, `int`) arithmetic: the result of an
operation reduced into `[-2^63, 2^63)`. -/
def wrapInt64 (x : Int) : Int := (x + 2 ^ 63) % 2 ^ 64 - 2 ^ 63

/-- Largest `int64`. -/
def maxInt64 : Int := 2 ^ 63 - 1

/-- The arguments handed to one chunk goroutine: `(partNum, offset, partSize)`; `offset` and
`partSize` are those of the `SectionReader`. -/
structure Chunk where
  partNum : Int
  offset : Int
  partSize : Int
  deriving DecidableEq

/-- The loop `for offset < fileSize { ... }` of `UploadSingleFileByConcat`, reduced to the
triples it produces, in creation order. `none` when the fuel runs out before the loop ends. -/
def planLoop (fileSize chunkSize : Int) : (fuel : Nat) → (offset partNum : Int) → Option (List Chunk)
  | 0, offset, _ => if offset < fileSize then none else some []
  | fuel + 1, offset, partNum =>
    if offset < fileSize then
      let partNum1 := wrapInt64 (partNum + 1)
      let end0 := wrapInt64 (offset + chunkSize)
      let end1 := if end0 > fileSize then fileSize else end0
      let partSize := wrapInt64 (end1 - offset)
      (planLoop fileSize chunkSize fuel end1 partNum1).map (fun rest => ⟨partNum1, offset, partSize⟩ :: rest)
    else some []

/-! ## Chunk jobs -/

/-- What one invocation of the closure passed to `retry` meets: `cl.CreateUpload` fails,
`io.Copy(stream, r)` fails, or both succeed. -/
inductive AttemptOutcome where
  | createFails (e : GoError)
  | copyFails (e : GoError)
  | uploaded
  deriving DecidableEq

/-- State of one chunk goroutine: whether it executed `failed.Store(true)`, how many times
its closure ran, and whether a closure run reached `return nil` (session created and all
bytes copied). -/
structure JobState where
  stored : Bool
  calls : Nat
  uploaded : Bool
  deriving DecidableEq

/-- The closure `func() error { ... }` handed to `retry` by a chunk goroutine. The outcome of
its `calls`-th run is `script calls`. -/
def uploadAttempt (script : Nat → AttemptOutcome) (s : JobState) : Option GoError × JobState :=
  match script s.calls with
  | .createFails e => (some e, { s with stored := true, calls := s.calls + 1 })
  | .copyFails e => (some e, { s with stored := true, calls := s.calls + 1 })
  | .uploaded => (none, { s with calls := s.calls + 1, uploaded := true })

/-- The body of a chunk goroutine once it holds a rate-limiter slot. `flagSeen` is the value
`failed.Load()` returns to it. The value returned by `retry` is discarded, as in the source. -/
def chunkJob (retries : Int) (flagSeen : Bool) (script : Nat → AttemptOutcome) : JobState :=
  if flagSeen then ⟨false, 0, false⟩
  else (retry retries (uploadAttempt script) ⟨false, 0, false⟩).state

/-! ## Merge and completion poll -/

/-- The fields of `Upload` read by the poll loop. -/
structure Upload where
  RemoteOffset : Int
  RemoteSize : Int
  deriving DecidableEq

/-- The loop `for { GetUpload; if complete { break }; Sleep }`. `offsetUnknown` is the constant
`OffsetUnknown`, declared outside `laser.go`; `getUpload k` is the outcome of the `k`-th call
`cl.GetUpload(&u, final.Location)`: an error or the value it leaves in `u`. The result is the
returned error and the number of `GetUpload` calls made; `none` when the fuel runs out. -/
def pollLoop (offsetUnknown : Int) (getUpload : Nat → Except GoError Upload) :
    (fuel : Nat) → (polls : Nat) → Option (Option GoError × Nat)
  | 0, _ => none
  | fuel + 1, polls =>
    match getUpload polls with
    | .error e => some (some e, polls + 1)
    | .ok u =>
      if u.RemoteOffset ≠ offsetUnknown ∧ u.RemoteOffset = u.RemoteSize then some (none, polls + 1)
      else pollLoop offsetUnknown getUpload fuel (polls + 1)

/-! ## `UploadSingleFileByConcat` -/

/-- The collaborators of one run of `UploadSingleFileByConcat`. -/
structure ConcatEnv where
  /-- First error of `url.Parse`, `UpdateCapabilities`, `os.Open`, `f.Stat`, if any. -/
  setupErr : Option GoError
  /-- Value of `fileInfo.Size()`. -/
  fileSize : Int
  /-- Value `failed.Load()` returns to the goroutine of the given part number. -/
  flagSeen : Int → Bool
  /-- Outcome of each closure run of the goroutine of the given part number. -/
  attempts : Int → Nat → AttemptOutcome
  /-- Error of `cl.ConcatenateUploads`, if any. -/
  concatErr : Option GoError
  /-- The constant `OffsetUnknown`. -/
  offsetUnknown : Int
  /-- Outcome of each `cl.GetUpload` call of the poll loop. -/
  getUpload : Nat → Except GoError Upload

/-- How a run of `UploadSingleFileByConcat` ends. -/
inductive Exit where
  /-- The function returned the given error (`none` is `nil`). -/
  | returned (err : Option GoError)
  /-- The call `make(chan struct{}, limitRate)` panicked (negative capacity). -/
  | panicked
  /-- Every goroutine waits to send on the unbuffered `rateLimiter`; `wg.Wait` never returns. -/
  | blocked
  deriving DecidableEq

/-- Observable trace of one run of `UploadSingleFileByConcat`. -/
structure ConcatRun where
  exit : Exit
  plan : List Chunk
  jobs : List JobState
  concatRequested : Bool
  polls : Nat

/-- The function `UploadSingleFileByConcat(baseUrl, filePath, mapping, chunkSize, retries,
limitRate)`. `none` when the planning loop or the poll loop outlives `fuel`. -/
def UploadSingleFileByConcat (env : ConcatEnv) (chunkSize retries limitRate : Int) (fuel : Nat) :
    Option ConcatRun :=
  match env.setupErr with
  | some e => some ⟨.returned (some e), [], [], false, 0⟩
  | none =>
    if limitRate < 0 then some ⟨.panicked, [], [], false, 0⟩
    else
      match planLoop env.fileSize chunkSize fuel 0 0 with
      | none => none
      | some plan =>
        if limitRate = 0 ∧ plan ≠ [] then some ⟨.blocked, plan, [], false, 0⟩
        else
          let jobs := plan.map (fun c => chunkJob retries (env.flagSeen c.partNum) (env.attempts c.partNum))
          if jobs.any (fun j => j.stored) then
            some ⟨.returned (some errChunkUploadFailed), plan, jobs, false, 0⟩
          else
            match env.concatErr with
            | some e => some ⟨.returned (some e), plan, jobs, true, 0⟩
            | none =>
              match pollLoop env.offsetUnknown env.getUpload fuel 0 with
              | none => none
              | some (err, polls) => some ⟨.returned err, plan, jobs, true, polls⟩

/-! ## `UploadWithRetry` -/

/-- What one call `io.Copy(dst, src)` meets, as scripted by the collaborators. `complete`: it
returned a nil error, so the source was read to its end. `failed consumed delivered e`: it
returned `e` after reading (at most) `consumed` bytes from the source, the confirmed offset of
the stream having advanced by (at most) `delivered` of them. -/
inductive CopyOutcome where
  | complete
  | failed (consumed delivered : Nat) (e : GoError)
  deriving DecidableEq

/-- State of the source file and the upload stream during `UploadWithRetry`, with the trace the
properties refer to. -/
structure Transfer where
  /-- Content of the source file. -/
  srcData : List Nat
  /-- Read position of the source file. -/
  srcPos : Nat
  /-- Server-confirmed offset held by the stream (the value of `dst.Tell()`). -/
  confirmed : Nat
  /-- Source bytes `io.Copy` has read and handed to the stream in this run, in order. What the
  stream does with the bytes it is handed (confirm them, keep them for a later call) is its own
  business and is not modelled. -/
  sent : List Nat
  /-- For each copy attempt so far, the source position and the confirmed offset at its start. -/
  starts : List (Nat × Nat)
  /-- Number of `time.Sleep` calls. -/
  sleeps : Nat
  deriving DecidableEq

/-- One call `io.Copy(dst, src)`: it reads the source from its current position on and hands
every byte it reads to the stream. How far it reads before an error and how far the confirmed
offset advances are scripted by the outcome. -/
def ioCopy (t : Transfer) (o : CopyOutcome) : Option GoError × Transfer :=
  let avail := t.srcData.drop t.srcPos
  let t1 := { t with starts := t.starts ++ [(t.srcPos, t.confirmed)] }
  match o with
  | .complete =>
    (none, { t1 with srcPos := t.srcPos + avail.length, confirmed := t.confirmed + avail.length,
                     sent := t.sent ++ avail })
  | .failed consumed delivered e =>
    let c := min consumed avail.length
    let d := min delivered c
    (some e, { t1 with srcPos := t.srcPos + c, confirmed := t.confirmed + d,
                       sent := t.sent ++ avail.take c })

/-- The collaborators of one run of `UploadWithRetry`. -/
structure StreamEnv where
  /-- Outcome of `dst.Sync()`: an error or the refreshed server-confirmed offset. -/
  sync : Except GoError Nat
  /-- Error of `src.Seek(dst.Tell(), io.SeekStart)`, if any. -/
  seekErr : Option GoError
  /-- Outcome of each `io.Copy(dst, src)` call, the initial one being number 0. -/
  copy : Nat → CopyOutcome

/-- How the loop `for err != nil && attempts > 0` of `UploadWithRetry` is left. -/
inductive LoopExit where
  /-- By `return err` on a non-retryable error. -/
  | returned (e : GoError) (t : Transfer)
  /-- By its condition becoming false, with the given values of `attempts` and `err`. -/
  | fellThrough (attempts : Nat) (err : Option GoError) (t : Transfer)

/-- The loop `for err != nil && attempts > 0 { ... }` of `UploadWithRetry`, recursive on the
variable `attempts`; `next` is the number of the next `io.Copy` call. -/
def copyRetryLoop (copy : Nat → CopyOutcome) :
    (attempts next : Nat) → Option GoError → Transfer → LoopExit
  | attempts, _, none, t => .fellThrough attempts none t
  | 0, _, some e, t => .fellThrough 0 (some e) t
  | attempts + 1, next, some e, t =>
    if !e.isNetError && !e.is .errChecksumMismatch then .returned e t
    else
      let r := ioCopy { t with sleeps := t.sleeps + 1 } (copy next)
      copyRetryLoop copy attempts (next + 1) r.1 r.2

/-- The function `UploadWithRetry(dst *UploadStream, src *os.File) error`, returning its error
together with the final state of source and stream. -/
def UploadWithRetry (env : StreamEnv) (t0 : Transfer) : Option GoError × Transfer :=
  match env.sync with
  | .error e => (some e, t0)
  | .ok k =>
    let t1 := { t0 with confirmed := k }
    match env.seekErr with
    | some e => (some e, t1)
    | none =>
      let t2 := { t1 with srcPos := t1.confirmed }
      let r := ioCopy t2 (env.copy 0)
      match copyRetryLoop env.copy 10 1 r.1 r.2 with
      | .returned e t => (some e, t)
      | .fellThrough attempts _ t =>
        if attempts = 0 then (some errTooManyAttempts, t) else (none, t)

/-! ## Properties and scripted collaborators used by the theorems -/

/-- Invariant of the planning loop entered with the given `offset` and `partNum`: what the
triples produced from there on satisfy. -/
structure PlanFrom (fileSize chunkSize offset partNum : Int) (cs : List Chunk) : Prop where
  partNums : ∀ (i : Nat) (c : Chunk), cs[i]? = some c → c.partNum = partNum + i + 1
  headOffset : ∀ c : Chunk, cs[0]? = some c → c.offset = offset
  nonempty : offset < fileSize → cs ≠ []
  contiguous : ∀ (i : Nat) (c d : Chunk), cs[i]? = some c → cs[i + 1]? = some d →
    d.offset = c.offset + c.partSize
  positive : ∀ c ∈ cs, 0 < c.partSize
  total : (cs.map (fun c => c.partSize)).sum = fileSize - offset
  fullChunks : ∀ (i : Nat) (c : Chunk), cs[i]? = some c → i + 1 < cs.length →
    c.partSize = chunkSize
  lastChunk : ∀ c : Chunk, cs.getLast? = some c →
    c.partSize =
      if (fileSize - offset) % chunkSize ≠ 0 then (fileSize - offset) % chunkSize else chunkSize

/-- The planning property: part numbers `1, 2, ..., n` in creation order, first offset `0`,
each next offset the previous offset plus the previous size (so strictly increasing, without
gap or overlap), sizes summing to `fileSize`, every chunk but the last of size `chunkSize`,
and the last of size `fileSize % chunkSize` when that is non-zero and `chunkSize` otherwise. -/
structure IsChunkPartition (fileSize chunkSize : Int) (cs : List Chunk) : Prop where
  partNums : ∀ (i : Nat) (c : Chunk), cs[i]? = some c → c.partNum = i + 1
  firstOffset : ∃ c : Chunk, cs[0]? = some c ∧ c.offset = 0
  contiguous : ∀ (i : Nat) (c d : Chunk), cs[i]? = some c → cs[i + 1]? = some d →
    d.offset = c.offset + c.partSize
  increasing : ∀ (i : Nat) (c d : Chunk), cs[i]? = some c → cs[i + 1]? = some d →
    c.offset < d.offset
  total : (cs.map (fun c => c.partSize)).sum = fileSize
  fullChunks : ∀ (i : Nat) (c : Chunk), cs[i]? = some c → i + 1 < cs.length →
    c.partSize = chunkSize
  lastChunk : ∃ c : Chunk, cs.getLast? = some c ∧
    c.partSize = if fileSize % chunkSize ≠ 0 then fileSize % chunkSize else chunkSize

/-- A `GetUpload` response after which the poll loop sleeps and polls again: the remote offset
is unknown, or differs from the remote size. -/
def Upload.incomplete (offsetUnknown : Int) (u : Upload) : Prop :=
  u.RemoteOffset = offsetUnknown ∨ u.RemoteOffset ≠ u.RemoteSize

/-- The test of the retry loop of `UploadWithRetry` lets the error through to another copy:
it is a `net.Error` or an error that is `ErrChecksumMismatch`. -/
def GoError.retryable (e : GoError) : Prop :=
  (!e.isNetError && !e.is .errChecksumMismatch) = false

/-- What the shared flag allows: a goroutine of the plan can see the flag set only if some
goroutine that saw it unset stores it. -/
def ConcatEnv.flagConsistent (env : ConcatEnv) (retries : Int) (plan : List Chunk) : Prop :=
  (∃ c ∈ plan, env.flagSeen c.partNum = true) →
    ∃ c ∈ plan, env.flagSeen c.partNum = false ∧
      (chunkJob retries false (env.attempts c.partNum)).stored = true

/-- An operation that returns `errAbort` on every call. -/
def abortingOp (_ : Unit) : Option GoError × Unit := (some ⟨.errAbort, []⟩, ())

/-- An operation that fails on every call with the error value `other n`. -/
def failingOp (n : Nat) (_ : Unit) : Option GoError × Unit := (some ⟨.other n, []⟩, ())

/-- A chunk upload whose first closure run fails in `io.Copy` with a network error and whose
second run succeeds. -/
def failOnceThenUpload : Nat → AttemptOutcome
  | 0 => .copyFails ⟨.netError 0, []⟩
  | _ => .uploaded

/-- A run on a file of one byte: set-up and concatenation succeed, no goroutine sees the flag
set, every chunk follows `script`, and the first `GetUpload` reports offset 1 of size 1. -/
def oneByteEnv (script : Nat → AttemptOutcome) : ConcatEnv where
  setupErr := none
  fileSize := 1
  flagSeen := fun _ => false
  attempts := fun _ => script
  concatErr := none
  offsetUnknown := -1
  getUpload := fun _ => .ok ⟨1, 1⟩

/-- Two `GetUpload` responses with an unknown offset (`-1`), then offset 7 of size 7. -/
def scriptedPoll : Nat → Except GoError Upload
  | 0 => .ok ⟨-1, 7⟩
  | 1 => .ok ⟨-1, 7⟩
  | _ => .ok ⟨7, 7⟩

/-- The run `oneByteEnv` with every chunk uploaded at once and the poll responses of
`scriptedPoll`. -/
def scriptedPollEnv : ConcatEnv :=
  { oneByteEnv (fun _ => .uploaded) with getUpload := scriptedPoll }

/-- The first `io.Copy` fails with a network error after reading two source bytes of which one
was confirmed; the next one completes. -/
def lossyThenComplete : Nat → CopyOutcome
  | 0 => .failed 2 1 ⟨.netError 0, []⟩
  | _ => .complete

/-- The initial `io.Copy` and the first nine retries fail with a network error before reading
anything; the tenth retry completes. -/
def failTenThenComplete (k : Nat) : CopyOutcome :=
  if k < 10 then .failed 0 0 ⟨.netError 0, []⟩ else .complete

/-- A source of three bytes, nothing sent yet. -/
def threeBytes : Transfer := ⟨[10, 20, 30], 0, 0, [], [], 0⟩

/-! ## `retry`: termination, abort, exhaustion -/

/-- An operation that fails with a non-abort error on every call drives `retryLoop` through
all its remaining iterations: each one is a call followed by a sleep. -/
theorem retryLoop_of_always_failing {σ : Type} (fn : σ → Option GoError × σ)
    (hfail : ∀ x, ∃ e, (fn x).1 = some e ∧ e.is .errAbort = false) :
    ∀ (n calls sleeps : Nat) (s : σ),
      (retryLoop fn n calls sleeps s).err = some errRetriesExhausted ∧
      (retryLoop fn n calls sleeps s).calls = calls + n ∧
      (retryLoop fn n calls sleeps s).sleeps = sleeps + n := by
  intro n
  induction n with
  | zero => intro calls sleeps s; simp [retryLoop]
  | succ n ih =>
    intro calls sleeps s
    obtain ⟨e, he, hab⟩ := hfail s
    rcases hfs : fn s with ⟨r, s1⟩
    rw [hfs] at he
    simp only at he
    subst he
    have h := ih (calls + 1) (sleeps + 1) s1
    simp only [retryLoop, hfs, hab, Bool.false_eq_true, if_false]
    refine ⟨h.1, ?_, ?_⟩
    · rw [h.2.1]; omega
    · rw [h.2.2]; omega

/-- Claim C4 (retry termination). For every `maxAttempts` and every operation that fails with a
non-abort error on every call, `retry maxAttempts op` (a total function, so it terminates)
invokes `op` exactly `maxAttempts` times (not at all when `maxAttempts` is negative) and
returns the retries-exhausted error, which is a non-nil error. -/
theorem retry_terminates_after_maxAttempts {σ : Type} (maxAttempts : Int)
    (op : σ → Option GoError × σ) (s : σ)
    (hfail : ∀ x, ∃ e, (op x).1 = some e ∧ e.is .errAbort = false) :
    (retry maxAttempts op s).calls = maxAttempts.toNat ∧
    (retry maxAttempts op s).err = some errRetriesExhausted := by
  have h := retryLoop_of_always_failing op hfail maxAttempts.toNat 0 0 s
  exact ⟨by simpa [retry] using h.2.1, h.1⟩

/-- Instance of C4: three attempts on an operation that always fails with `other 7`. -/
theorem retry_terminates_after_maxAttempts_witness :
    (retry 3 (failingOp 7) ()).calls = 3 ∧
    (retry 3 (failingOp 7) ()).err = some errRetriesExhausted :=
  retry_terminates_after_maxAttempts 3 (failingOp 7) () (fun _ => ⟨⟨.other 7, []⟩, rfl, rfl⟩)

/-- Claim C5 as amended (abort short-circuit). For every `maxAttempts ≥ 1`, if the operation
returns an error that is (or wraps) `errAbort` on its first call, `retry` invokes it exactly
once, never sleeps, and returns that same error, leaving the state of that single call. -/
theorem retry_abort_on_first_call {σ : Type} (maxAttempts : Int)
    (op : σ → Option GoError × σ) (s s1 : σ) (e : GoError)
    (hpos : 1 ≤ maxAttempts) (hop : op s = (some e, s1)) (habort : e.is .errAbort = true) :
    (retry maxAttempts op s).calls = 1 ∧ (retry maxAttempts op s).sleeps = 0 ∧
    (retry maxAttempts op s).err = some e ∧ (retry maxAttempts op s).state = s1 := by
  obtain ⟨n, hn⟩ : ∃ n, maxAttempts.toNat = n + 1 := ⟨maxAttempts.toNat - 1, by omega⟩
  simp [retry, hn, retryLoop, hop, habort]

/-- Instance of C5 as amended: five attempts allowed, the operation aborts at once. -/
theorem retry_abort_on_first_call_witness :
    (retry 5 abortingOp ()).calls = 1 ∧ (retry 5 abortingOp ()).sleeps = 0 ∧
    (retry 5 abortingOp ()).err = some ⟨.errAbort, []⟩ ∧ (retry 5 abortingOp ()).state = () :=
  retry_abort_on_first_call 5 abortingOp () () ⟨.errAbort, []⟩ (by decide) rfl rfl

/-- Claim C5 fails as stated at `maxAttempts = 0`: an operation that would return `errAbort` on
its first call is not invoked at all (zero calls, not one) and `retry` returns the
retries-exhausted error instead of the abort error. -/
theorem retry_abort_zero_attempts_counterexample :
    (abortingOp ()).1 = some ⟨.errAbort, []⟩ ∧
    (retry 0 abortingOp ()).calls = 0 ∧
    (retry 0 abortingOp ()).err = some errRetriesExhausted ∧
    (retry 0 abortingOp ()).err ≠ some ⟨.errAbort, []⟩ := by
  decide

/-- Claim C6 as amended (exhaustion error). For every `maxAttempts ≥ 1` and every operation
that fails with non-abort errors on all calls, the operation is called (at least once, so
there is a last underlying error) and `retry` returns the fixed value `errRetriesExhausted`,
whatever the underlying errors were; its `Unwrap` chain is empty and `errors.Is` relates it to
no error value but itself, so it neither wraps nor records the error of the last call. -/
theorem retry_exhausted_error_has_no_cause {σ : Type} (maxAttempts : Int)
    (op : σ → Option GoError × σ) (s : σ) (hpos : 1 ≤ maxAttempts)
    (hfail : ∀ x, ∃ e, (op x).1 = some e ∧ e.is .errAbort = false) :
    1 ≤ (retry maxAttempts op s).calls ∧
    (retry maxAttempts op s).err = some errRetriesExhausted ∧
    errRetriesExhausted.unwrap = [] ∧
    ∀ x : ErrId, errRetriesExhausted.is x = true → x = .retriesExhausted := by
  have h := retryLoop_of_always_failing op hfail maxAttempts.toNat 0 0 s
  refine ⟨?_, h.1, rfl, ?_⟩
  · have hc : (retry maxAttempts op s).calls = 0 + maxAttempts.toNat := h.2.1
    omega
  · intro x hx
    simp [GoError.is, errRetriesExhausted] at hx
    exact hx.symm

/-- Instance of C6 as amended: two attempts on an operation that always fails with `other 7`. -/
theorem retry_exhausted_error_has_no_cause_witness :
    1 ≤ (retry 2 (failingOp 7) ()).calls ∧
    (retry 2 (failingOp 7) ()).err = some errRetriesExhausted ∧
    errRetriesExhausted.unwrap = [] ∧
    ∀ x : ErrId, errRetriesExhausted.is x = true → x = .retriesExhausted :=
  retry_exhausted_error_has_no_cause 2 (failingOp 7) () (by decide)
    (fun _ => ⟨⟨.other 7, []⟩, rfl, rfl⟩)

/-- Claim C6 fails as stated at `maxAttempts = 1`: the single call fails with `other 7`, and the
error `retry` returns has an empty `Unwrap` chain and is not `errors.Is`-related to `other 7`;
an operation failing with `other 8` gets the very same error back, so the last underlying
error cannot be recovered from it. -/
theorem retry_exhausted_error_counterexample :
    (failingOp 7 ()).1 = some ⟨.other 7, []⟩ ∧
    (retry 1 (failingOp 7) ()).calls = 1 ∧
    (retry 1 (failingOp 7) ()).err = some errRetriesExhausted ∧
    errRetriesExhausted.unwrap = [] ∧
    errRetriesExhausted.is (.other 7) = false ∧
    (retry 1 (failingOp 8) ()).err = (retry 1 (failingOp 7) ()).err := by
  decide

/-! ## Chunk planning -/

/-- A value within the `int64` range is left unchanged by `wrapInt64`. -/
theorem wrapInt64_of_inRange (x : Int) (hlo : -(2 ^ 63) ≤ x) (hhi : x ≤ maxInt64) :
    wrapInt64 x = x := by
  unfold wrapInt64 maxInt64 at *
  omega

/-- Once `offset` has reached `fileSize` the loop produces nothing more, whatever the fuel. -/
theorem planLoop_done (fileSize chunkSize : Int) (fuel : Nat) (offset partNum : Int)
    (h : ¬ offset < fileSize) : planLoop fileSize chunkSize fuel offset partNum = some [] := by
  cases fuel <;> simp [planLoop, h]

/-- The last iteration: the chunk that reaches the end of the file. -/
theorem planFrom_single (fileSize chunkSize o p : Int)
    (hlt : o < fileSize) (hle : fileSize ≤ o + chunkSize) :
    PlanFrom fileSize chunkSize o p [⟨p + 1, o, fileSize - o⟩] := by
  constructor
  · intro i c h
    match i, h with
    | 0, h => simp at h; subst h; simp
  · intro c h; simp at h; subst h; rfl
  · intro _; simp
  · intro i c d _ h; simp at h
  · intro c h; simp at h; subst h; simp; omega
  · simp
  · intro i c _ h; simp at h
  · intro c h
    simp at h; subst h
    simp only
    by_cases hfull : fileSize - o = chunkSize
    · rw [hfull]; simp
    · have h1 : (fileSize - o) % chunkSize = fileSize - o :=
        Int.emod_eq_of_lt (by omega) (by omega)
      rw [h1]
      have : fileSize - o ≠ 0 := by omega
      simp [this]

/-- An iteration that is not the last: a full chunk in front of the plan of the rest. -/
theorem planFrom_cons (fileSize chunkSize o p : Int) (cs : List Chunk) (hc : 0 < chunkSize)
    (hlt : o + chunkSize < fileSize)
    (h : PlanFrom fileSize chunkSize (o + chunkSize) (p + 1) cs) :
    PlanFrom fileSize chunkSize o p (⟨p + 1, o, chunkSize⟩ :: cs) := by
  have hne : cs ≠ [] := h.nonempty hlt
  constructor
  · intro i c hi
    match i, hi with
    | 0, hi => simp at hi; subst hi; simp
    | k + 1, hi =>
      simp at hi
      have := h.partNums k c hi
      rw [this]; push_cast; ring
  · intro c hi; simp at hi; subst hi; rfl
  · intro _; simp
  · intro i c d hi hd
    match i, hi, hd with
    | 0, hi, hd =>
      simp at hi hd; subst hi
      exact h.headOffset d hd
    | k + 1, hi, hd =>
      simp at hi hd
      exact h.contiguous k c d hi hd
  · intro c hmem
    simp at hmem
    rcases hmem with rfl | hmem
    · exact hc
    · exact h.positive c hmem
  · simp [h.total]; ring
  · intro i c hi hlen
    match i, hi, hlen with
    | 0, hi, _ => simp at hi; subst hi; rfl
    | k + 1, hi, hlen =>
      simp at hi hlen
      exact h.fullChunks k c hi (by omega)
  · intro c hlast
    obtain ⟨y, ys, rfl⟩ := List.exists_cons_of_ne_nil hne
    rw [List.getLast?_cons_cons] at hlast
    have := h.lastChunk c hlast
    have hmod : (fileSize - (o + chunkSize)) % chunkSize = (fileSize - o) % chunkSize := by
      have : fileSize - (o + chunkSize) = (fileSize - o) + (-1) * chunkSize := by ring
      rw [this, Int.add_mul_emod_self]
    rw [hmod] at this
    exact this

/-- The loop invariant: entered at an offset from which no addition `offset + chunkSize` of
a later iteration leaves the `int64` range, the loop ends within `fileSize - offset`
iterations and its triples satisfy `PlanFrom`. -/
theorem planLoop_from (fileSize chunkSize : Int) (hc : 0 < chunkSize) :
    ∀ (fuel : Nat) (offset partNum : Int),
      0 ≤ partNum → partNum ≤ offset → offset ≤ fileSize →
      (∀ j : Nat, offset + j * chunkSize < fileSize →
        offset + j * chunkSize + chunkSize ≤ maxInt64) →
      (fileSize - offset).toNat ≤ fuel →
      ∃ cs, planLoop fileSize chunkSize fuel offset partNum = some cs ∧
        PlanFrom fileSize chunkSize offset partNum cs := by
  intro fuel
  induction fuel with
  | zero =>
    intro o p hp hpo hof hH hfuel
    have : ¬ o < fileSize := by omega
    refine ⟨[], by simp [planLoop, this], ?_⟩
    have hEq : fileSize - o = 0 := by omega
    constructor <;> simp [hEq]
    · omega
  | succ n ih =>
    intro o p hp hpo hof hH hfuel
    by_cases hlt : o < fileSize
    · have hoc : o + chunkSize ≤ maxInt64 := by simpa using hH 0 (by simpa using hlt)
      have hmax : maxInt64 = 2 ^ 63 - 1 := rfl
      have hw1 : wrapInt64 (p + 1) = p + 1 :=
        wrapInt64_of_inRange _ (by omega) (by omega)
      have hw2 : wrapInt64 (o + chunkSize) = o + chunkSize :=
        wrapInt64_of_inRange _ (by omega) hoc
      by_cases hmore : o + chunkSize < fileSize
      · have hH1 : ∀ j : Nat, o + chunkSize + j * chunkSize < fileSize →
            o + chunkSize + j * chunkSize + chunkSize ≤ maxInt64 := by
          intro j hj
          have := hH (j + 1) (by push_cast; linarith)
          push_cast at this
          linarith
        obtain ⟨cs, hcs, hP⟩ := ih (o + chunkSize) (p + 1) (by omega) (by omega) (by omega) hH1
          (by omega)
        have hw3 : wrapInt64 chunkSize = chunkSize :=
          wrapInt64_of_inRange _ (by omega) (by omega)
        have hng : ¬ o + chunkSize > fileSize := by omega
        refine ⟨⟨p + 1, o, chunkSize⟩ :: cs, ?_,
          planFrom_cons fileSize chunkSize o p cs hc hmore hP⟩
        simp [planLoop, hlt, hw1, hw2, hng, hcs, hw3]
      · have hw3 : wrapInt64 (fileSize - o) = fileSize - o :=
          wrapInt64_of_inRange _ (by omega) (by omega)
        refine ⟨[⟨p + 1, o, fileSize - o⟩], ?_,
          planFrom_single fileSize chunkSize o p hlt (by omega)⟩
        have hdone := planLoop_done fileSize chunkSize n fileSize (p + 1) (lt_irrefl _)
        by_cases hg : o + chunkSize > fileSize
        · simp [planLoop, hlt, hw1, hw2, hg, hdone, hw3]
        · have he : fileSize = o + chunkSize := by omega
          subst he
          simp [planLoop, hw1, hw2, hdone, hc]
          exact wrapInt64_of_inRange _ (by omega) (by omega)
    · refine ⟨[], planLoop_done _ _ _ _ _ hlt, ?_⟩
      have hEq : fileSize - o = 0 := by omega
      constructor <;> simp [hEq]
      · omega

/-- For a non-empty file the invariant at the loop entry is the planning property. -/
theorem isChunkPartition_of_planFrom (fileSize chunkSize : Int) (cs : List Chunk)
    (hf : 0 < fileSize) (h : PlanFrom fileSize chunkSize 0 0 cs) :
    IsChunkPartition fileSize chunkSize cs := by
  have hne : cs ≠ [] := h.nonempty hf
  obtain ⟨y, ys, rfl⟩ := List.exists_cons_of_ne_nil hne
  constructor
  · intro i c hi; simpa using h.partNums i c hi
  · exact ⟨y, by simp, h.headOffset y (by simp)⟩
  · exact h.contiguous
  · intro i c d hi hd
    have h1 := h.contiguous i c d hi hd
    have h2 := h.positive c (List.getElem?_mem hi)
    omega
  · simpa using h.total
  · exact h.fullChunks
  · obtain ⟨c, hc⟩ : ∃ c, (y :: ys).getLast? = some c :=
      ⟨(y :: ys).getLast hne, List.getLast?_eq_getLast _ hne⟩
    exact ⟨c, hc, by simpa using h.lastChunk c hc⟩

/-- Claim C1 as amended (chunk planning). For every `fileSize > 0` and `chunkSize > 0` such that
the end of the last chunk slot, `(⌊(fileSize - 1) / chunkSize⌋ + 1) * chunkSize`, is at most
`2^63 - 1` (no `offset + chunkSize` overflows `int64`), the planning loop ends (any fuel of at
least `fileSize` iterations is enough) and its triples have part numbers `1, 2, ..., n` in
creation order, first offset `0`, each next offset equal to the previous offset plus the
previous size, strictly increasing offsets, sizes summing to `fileSize`, every chunk but the
last of size `chunkSize`, and a last chunk of size `fileSize % chunkSize` when that is
non-zero and `chunkSize` otherwise. -/
theorem plan_partitions_file (fileSize chunkSize : Int) (fuel : Nat)
    (hf : 0 < fileSize) (hc : 0 < chunkSize)
    (hrange : ((fileSize - 1) / chunkSize + 1) * chunkSize ≤ maxInt64)
    (hfuel : fileSize.toNat ≤ fuel) :
    ∃ cs, planLoop fileSize chunkSize fuel 0 0 = some cs ∧
      IsChunkPartition fileSize chunkSize cs := by
  have hH : ∀ j : Nat, 0 + j * chunkSize < fileSize →
      0 + j * chunkSize + chunkSize ≤ maxInt64 := by
    intro j hj
    have h1 : (j : Int) * chunkSize ≤ fileSize - 1 := by omega
    have h2 : (j : Int) ≤ (fileSize - 1) / chunkSize := (Int.le_ediv_iff_mul_le hc).mpr h1
    have h3 : ((j : Int) + 1) * chunkSize ≤ ((fileSize - 1) / chunkSize + 1) * chunkSize :=
      mul_le_mul_of_nonneg_right (by omega) (le_of_lt hc)
    linarith
  obtain ⟨cs, hcs, hP⟩ :=
    planLoop_from fileSize chunkSize hc fuel 0 0 le_rfl le_rfl (le_of_lt hf) hH
      (by simpa using hfuel)
  exact ⟨cs, hcs, isChunkPartition_of_planFrom fileSize chunkSize cs hf hP⟩

/-- Instance of C1 as amended: a file of 10 bytes in chunks of 4 bytes. -/
theorem plan_partitions_file_witness :
    (0 : Int) < 10 ∧ (0 : Int) < 4 ∧ (((10 : Int) - 1) / 4 + 1) * 4 ≤ maxInt64 ∧
    ∃ cs, planLoop 10 4 10 0 0 = some cs ∧ IsChunkPartition 10 4 cs :=
  ⟨by decide, by decide, by decide,
    plan_partitions_file 10 4 10 (by decide) (by decide) (by decide) (by decide)⟩

/-- Claim C1 fails as stated at `fileSize = 2^63 - 1`, `chunkSize = 2^63 - 2` (both positive
`int64` values): in the second iteration `offset + chunkSize` wraps around to `-4`, the third
triple starts at offset `-4`, and no amount of fuel yields a plan with the planning
property. -/
theorem plan_overflow_counterexample :
    ¬ ∃ (fuel : Nat) (cs : List Chunk),
        planLoop maxInt64 (maxInt64 - 1) fuel 0 0 = some cs ∧
        IsChunkPartition maxInt64 (maxInt64 - 1) cs := by
  rintro ⟨fuel, cs, h, hP⟩
  match fuel, h with
  | 0, h => simp [planLoop, maxInt64] at h
  | 1, h => simp [planLoop, maxInt64, wrapInt64] at h
  | 2, h => simp [planLoop, maxInt64, wrapInt64] at h
  | n + 3, h =>
    simp [planLoop, maxInt64, wrapInt64] at h
    obtain ⟨rest, -, rfl⟩ := h
    have := hP.contiguous 1 ⟨2, 9223372036854775806, 9223372036854775806⟩
      ⟨3, -4, 9223372036854775806⟩ (by simp) (by simp)
    simp at this

/-! ## Merge completion poll -/

/-- The poll loop entered before call number `p`: after `m` incomplete responses and a
complete one it has made `m + 1` further calls and returns nil. -/
theorem pollLoop_from (offsetUnknown : Int) (getUpload : Nat → Except GoError Upload) :
    ∀ (m fuel p : Nat), m < fuel →
      (∀ k, k < m → ∃ u, getUpload (p + k) = .ok u ∧ u.incomplete offsetUnknown) →
      (∃ u, getUpload (p + m) = .ok u ∧ u.RemoteOffset ≠ offsetUnknown ∧
        u.RemoteOffset = u.RemoteSize) →
      pollLoop offsetUnknown getUpload fuel p = some (none, p + m + 1) := by
  intro m
  induction m with
  | zero =>
    intro fuel p hfuel _ hlast
    obtain ⟨u, hu, h1, h2⟩ := hlast
    obtain ⟨f, rfl⟩ : ∃ f, fuel = f + 1 := ⟨fuel - 1, by omega⟩
    simp only [Nat.add_zero] at hu
    simp only [pollLoop, hu]
    rw [if_pos ⟨h1, h2⟩]
  | succ m ih =>
    intro fuel p hfuel hpre hlast
    obtain ⟨f, rfl⟩ : ∃ f, fuel = f + 1 := ⟨fuel - 1, by omega⟩
    obtain ⟨u, hu, hinc⟩ := hpre 0 (by omega)
    simp only [Nat.add_zero] at hu
    have hnot : ¬ (u.RemoteOffset ≠ offsetUnknown ∧ u.RemoteOffset = u.RemoteSize) := by
      rintro ⟨h1, h2⟩
      rcases hinc with h | h
      · exact h1 h
      · exact h h2
    have hrec := ih f (p + 1) (by omega)
      (fun k hk => by
        have := hpre (k + 1) (by omega)
        rwa [show p + (k + 1) = p + 1 + k by omega] at this)
      (by rwa [show p + (m + 1) = p + 1 + m by omega] at hlast)
    simp only [pollLoop, hu]
    rw [if_neg hnot, hrec]
    congr 2
    omega

/-- The poll loop from its start: `n - 1` incomplete responses, then a complete one, give
exactly `n` calls and a nil error. -/
theorem pollLoop_until_complete (offsetUnknown : Int) (getUpload : Nat → Except GoError Upload)
    (n fuel : Nat) (hn : 1 ≤ n) (hfuel : n ≤ fuel)
    (hpre : ∀ k, k + 1 < n → ∃ u, getUpload k = .ok u ∧ u.incomplete offsetUnknown)
    (hlast : ∃ u, getUpload (n - 1) = .ok u ∧ u.RemoteOffset ≠ offsetUnknown ∧
      u.RemoteOffset = u.RemoteSize) :
    pollLoop offsetUnknown getUpload fuel 0 = some (none, n) := by
  have h := pollLoop_from offsetUnknown getUpload (n - 1) fuel 0 (by omega)
    (fun k hk => by simpa using hpre k (by omega))
    (by simpa using hlast)
  rw [h]
  congr 2
  omega

/-- Claim C9 (merge completion polling). In a run of `UploadSingleFileByConcat` that reaches a
successful `ConcatenateUploads` (set-up succeeds, `limitRate` is positive, the planning loop
ends, no chunk goroutine stores the failure flag), if the first `n - 1` `GetUpload` responses
are successful and incomplete (remote offset unknown, or different from the remote size) and
the `n`-th is successful with a known remote offset equal to the remote size, then the run
performs exactly `n` `GetUpload` calls and returns nil. -/
theorem merge_poll_count (env : ConcatEnv) (chunkSize retries limitRate : Int)
    (fuel n : Nat) (plan : List Chunk)
    (hsetup : env.setupErr = none) (hrate : 0 < limitRate)
    (hplan : planLoop env.fileSize chunkSize fuel 0 0 = some plan)
    (hjobs : ∀ c ∈ plan,
      (chunkJob retries (env.flagSeen c.partNum) (env.attempts c.partNum)).stored = false)
    (hconcat : env.concatErr = none)
    (hn : 1 ≤ n) (hfuel : n ≤ fuel)
    (hpre : ∀ k, k + 1 < n → ∃ u, env.getUpload k = .ok u ∧
      (u.RemoteOffset = env.offsetUnknown ∨ u.RemoteOffset ≠ u.RemoteSize))
    (hlast : ∃ u, env.getUpload (n - 1) = .ok u ∧ u.RemoteOffset ≠ env.offsetUnknown ∧
      u.RemoteOffset = u.RemoteSize) :
    ∃ r, UploadSingleFileByConcat env chunkSize retries limitRate fuel = some r ∧
      r.exit = .returned none ∧ r.concatRequested = true ∧ r.polls = n := by
  have hpoll := pollLoop_until_complete env.offsetUnknown env.getUpload n fuel hn hfuel hpre hlast
  have hr1 : ¬ limitRate < 0 := by omega
  have hr2 : ¬ (limitRate = 0 ∧ plan ≠ []) := by omega
  have hany : (plan.map (fun c =>
      chunkJob retries (env.flagSeen c.partNum) (env.attempts c.partNum))).any
        (fun j => j.stored) = false := by
    simpa [List.any_eq_false] using hjobs
  simp [UploadSingleFileByConcat, hsetup, hr1, hplan, hr2, hany, hconcat, hpoll]

/-- Instance of C9: two responses with an unknown offset, then a matching offset and size,
give exactly 3 polls. -/
theorem merge_poll_count_witness :
    ∃ r, UploadSingleFileByConcat scriptedPollEnv 1 1 1 3 = some r ∧
      r.exit = .returned none ∧ r.concatRequested = true ∧ r.polls = 3 :=
  merge_poll_count scriptedPollEnv 1 1 1 3 3 [⟨1, 0, 1⟩] rfl (by decide) (by decide) (by decide)
    rfl (by decide) (by decide)
    (fun k hk => by
      match k, hk with
      | 0, _ => exact ⟨⟨-1, 7⟩, rfl, Or.inl rfl⟩
      | 1, _ => exact ⟨⟨-1, 7⟩, rfl, Or.inl rfl⟩)
    ⟨⟨7, 7⟩, rfl, by decide, rfl⟩

/-! ## Chunk jobs and the merge gate -/

/-- A closure run that returns an error has stored the failure flag. -/
theorem uploadAttempt_error_stores (script : Nat → AttemptOutcome) (s s1 : JobState)
    (e : GoError) (h : uploadAttempt script s = (some e, s1)) : s1.stored = true := by
  unfold uploadAttempt at h
  cases hs : script s.calls <;> simp [hs] at h <;> (obtain ⟨-, rfl⟩ := h; rfl)

/-- A closure run that returns nil has uploaded the chunk and left the flag as it was. -/
theorem uploadAttempt_nil_uploads (script : Nat → AttemptOutcome) (s s1 : JobState)
    (h : uploadAttempt script s = (none, s1)) :
    s1.uploaded = true ∧ s1.stored = s.stored ∧ s1.calls = s.calls + 1 := by
  unfold uploadAttempt at h
  cases hs : script s.calls <;> simp [hs] at h
  subst h
  exact ⟨rfl, rfl, rfl⟩

/-- The flag is never reset: a job that has stored it still has it stored when `retry` ends. -/
theorem retryLoop_keeps_stored (script : Nat → AttemptOutcome) :
    ∀ (n calls sleeps : Nat) (s : JobState), s.stored = true →
      (retryLoop (uploadAttempt script) n calls sleeps s).state.stored = true := by
  intro n
  induction n with
  | zero => intro calls sleeps s hs; simpa [retryLoop] using hs
  | succ n ih =>
    intro calls sleeps s hs
    rcases hfs : uploadAttempt script s with ⟨r, s1⟩
    cases r with
    | none =>
      have := (uploadAttempt_nil_uploads script s s1 hfs).2.1
      simp [retryLoop, hfs, this, hs]
    | some e =>
      have hs1 := uploadAttempt_error_stores script s s1 e hfs
      by_cases hab : e.is .errAbort = true
      · simp [retryLoop, hfs, hab, hs1]
      · simp only [retryLoop, hfs, hab, if_false]
        exact ih _ _ s1 hs1

/-- A job whose first closure run fails ends with the failure flag stored, whatever its later
runs do and however many attempts it is allowed. -/
theorem chunkJob_stores_on_first_failure (retries : Int) (script : Nat → AttemptOutcome)
    (hpos : 1 ≤ retries) (hfail : script 0 ≠ .uploaded) :
    (chunkJob retries false script).stored = true := by
  obtain ⟨n, hn⟩ : ∃ n, retries.toNat = n + 1 := ⟨retries.toNat - 1, by omega⟩
  simp only [chunkJob, retry, hn, Bool.false_eq_true, if_false]
  rcases hfs : uploadAttempt script ⟨false, 0, false⟩ with ⟨r, s1⟩
  cases r with
  | none =>
    exfalso
    unfold uploadAttempt at hfs
    cases hs : script 0 <;> simp [hs] at hfs
    exact hfail hs
  | some e =>
    have hs1 := uploadAttempt_error_stores script _ s1 e hfs
    by_cases hab : e.is .errAbort = true
    · simp [retryLoop, hfs, hab, hs1]
    · simp only [retryLoop, hfs, hab, if_false]
      exact retryLoop_keeps_stored script n _ _ s1 hs1

/-- With at least one attempt allowed, a job that ran and ends with the flag not stored has
uploaded its chunk, in its first closure run. -/
theorem chunkJob_uploaded_of_not_stored (retries : Int) (script : Nat → AttemptOutcome)
    (hpos : 1 ≤ retries) (h : (chunkJob retries false script).stored = false) :
    (chunkJob retries false script).uploaded = true ∧
    (chunkJob retries false script).calls = 1 := by
  obtain ⟨n, hn⟩ : ∃ n, retries.toNat = n + 1 := ⟨retries.toNat - 1, by omega⟩
  simp only [chunkJob, retry, hn, Bool.false_eq_true, if_false] at h ⊢
  rcases hfs : uploadAttempt script ⟨false, 0, false⟩ with ⟨r, s1⟩
  cases r with
  | none =>
    have h1 := uploadAttempt_nil_uploads script _ s1 hfs
    simp [retryLoop, hfs, h1.1, h1.2.2]
  | some e =>
    have hs1 := uploadAttempt_error_stores script _ s1 e hfs
    by_cases hab : e.is .errAbort = true
    · simp [retryLoop, hfs, hab, hs1] at h
    · have hab1 : e.is .errAbort = false := by simpa using hab
      simp only [retryLoop, hfs, hab1, Bool.false_eq_true, if_false] at h
      rw [retryLoop_keeps_stored script n _ _ s1 hs1] at h
      exact absurd h (by decide)

/-- The merge gate for `retries ≥ 1`. In a run where a goroutine sees the flag set only if
some goroutine stores it, `ConcatenateUploads` is requested only if every planned chunk was
uploaded, each in its first closure run. -/
theorem merge_gate_of_positive_retries (env : ConcatEnv) (chunkSize retries limitRate : Int)
    (fuel : Nat) (r : ConcatRun) (hpos : 1 ≤ retries)
    (hrun : UploadSingleFileByConcat env chunkSize retries limitRate fuel = some r)
    (hseen : env.flagConsistent retries r.plan)
    (hconcat : r.concatRequested = true) :
    r.jobs.length = r.plan.length ∧ ∀ j ∈ r.jobs, j.uploaded = true ∧ j.calls = 1 := by
  have key : ∀ plan : List Chunk,
      env.flagConsistent retries plan →
      (plan.map (fun c =>
        chunkJob retries (env.flagSeen c.partNum) (env.attempts c.partNum))).any
          (fun j => j.stored) = false →
      ∀ j ∈ plan.map (fun c =>
        chunkJob retries (env.flagSeen c.partNum) (env.attempts c.partNum)),
        j.uploaded = true ∧ j.calls = 1 := by
    intro plan hcons hany j hj
    rw [List.any_eq_false] at hany
    have hnone : ∀ c ∈ plan, env.flagSeen c.partNum = false := by
      intro c hc
      by_contra hne
      have htrue : env.flagSeen c.partNum = true := by simpa using hne
      obtain ⟨d, hd, hdf, hds⟩ := hcons ⟨c, hc, htrue⟩
      have := hany (chunkJob retries (env.flagSeen d.partNum) (env.attempts d.partNum))
        (List.mem_map.mpr ⟨d, hd, rfl⟩)
      rw [hdf] at this
      exact this hds
    obtain ⟨c, hc, rfl⟩ := List.mem_map.mp hj
    have hst := hany _ (List.mem_map.mpr ⟨c, hc, rfl⟩)
    rw [hnone c hc] at hst ⊢
    exact chunkJob_uploaded_of_not_stored retries _ hpos (by simpa using hst)
  unfold UploadSingleFileByConcat at hrun
  split at hrun
  · cases hrun; simp at hconcat
  · split at hrun
    · cases hrun; simp at hconcat
    · split at hrun
      · simp at hrun
      · rename_i plan hplan
        split at hrun
        · cases hrun; simp at hconcat
        · simp only at hrun
          split at hrun
          · cases hrun; simp at hconcat
          · rename_i hany
            split at hrun
            · cases hrun
              exact ⟨by simp, key plan hseen (by simpa using hany)⟩
            · split at hrun
              · simp at hrun
              · cases hrun
                exact ⟨by simp, key plan hseen (by simpa using hany)⟩

/-- Claim C2 at `retries = 0` (file of one byte, `chunkSize = 1`, `limitRate = 1`): the one
planned chunk is never uploaded (its closure is not run, no session is created), the failure
flag stays unset, `ConcatenateUploads` is requested all the same, and the function
returns nil. -/
theorem merge_requested_without_upload_at_zero_retries :
    (UploadSingleFileByConcat (oneByteEnv (fun _ => .uploaded)) 1 0 1 1).map
        (fun r => (r.exit, r.plan, r.jobs, r.concatRequested)) =
      some (.returned none, [⟨1, 0, 1⟩], [⟨false, 0, false⟩], true) := by
  decide

/-- Claim C3 at `retries = 2` with a first attempt that fails on a network error and a second
that succeeds: the chunk goroutine ends with the chunk uploaded after 2 closure runs and with
the failure flag stored, and `UploadSingleFileByConcat` returns the chunk-upload failure error
without requesting the merge. -/
theorem recovered_chunk_still_stores_failure_flag :
    chunkJob 2 false failOnceThenUpload = ⟨true, 2, true⟩ ∧
    (UploadSingleFileByConcat (oneByteEnv failOnceThenUpload) 1 2 1 1).map
        (fun r => (r.exit, r.jobs, r.concatRequested)) =
      some (.returned (some errChunkUploadFailed), [⟨true, 2, true⟩], false) := by
  decide

/-! ## `UploadWithRetry` -/

/-- A run whose first copy completes: the source was positioned at the offset `k` reported by
`Sync`, the copy started there, exactly the source bytes from `k` on were handed to the
stream, and the function returns nil. -/
theorem UploadWithRetry_first_copy_completes (env : StreamEnv) (t0 : Transfer) (k : Nat)
    (hsync : env.sync = .ok k) (hseek : env.seekErr = none) (hcopy : env.copy 0 = .complete) :
    (UploadWithRetry env t0).1 = none ∧
    (UploadWithRetry env t0).2.starts = t0.starts ++ [(k, k)] ∧
    (UploadWithRetry env t0).2.sent = t0.sent ++ t0.srcData.drop k := by
  simp [UploadWithRetry, hsync, hseek, hcopy, ioCopy, copyRetryLoop]

/-- Failure of `io.Copy` returns the scripted error. -/
theorem ioCopy_failed_err (t : Transfer) (c d : Nat) (e : GoError) :
    (ioCopy t (.failed c d e)).1 = some e := rfl

/-- Completion of `io.Copy` returns nil. -/
theorem ioCopy_complete_err (t : Transfer) : (ioCopy t .complete).1 = none := rfl

/-- The retry loop entered after a retryable failure: when the next `m - 1` copies fail with
retryable errors and the one after them completes, the loop is left by its condition with
`attempts` lowered by `m` and a nil error. -/
theorem copyRetryLoop_after_failures (copy : Nat → CopyOutcome) :
    ∀ (m attempts next : Nat) (e : GoError) (t : Transfer),
      e.retryable → m + 1 ≤ attempts →
      (∀ j, j < m → ∃ c d e1, copy (next + j) = .failed c d e1 ∧ e1.retryable) →
      copy (next + m) = .complete →
      ∃ t1, copyRetryLoop copy attempts next (some e) t = .fellThrough (attempts - (m + 1)) none t1 := by
  intro m
  induction m with
  | zero =>
    intro attempts next e t he ha _ hok
    obtain ⟨a, rfl⟩ : ∃ a, attempts = a + 1 := ⟨attempts - 1, by omega⟩
    simp only [Nat.add_zero] at hok
    have he1 : (!e.isNetError && !e.is .errChecksumMismatch) = false := he
    refine ⟨(ioCopy { t with sleeps := t.sleeps + 1 } .complete).2, ?_⟩
    simp [copyRetryLoop, he1, hok, ioCopy_complete_err]
  | succ m ih =>
    intro attempts next e t he ha hfail hok
    obtain ⟨a, rfl⟩ : ∃ a, attempts = a + 1 := ⟨attempts - 1, by omega⟩
    obtain ⟨c, d, e1, hc, hr⟩ := hfail 0 (by omega)
    simp only [Nat.add_zero] at hc
    have he1 : (!e.isNetError && !e.is .errChecksumMismatch) = false := he
    obtain ⟨t1, ht1⟩ := ih a (next + 1) e1 (ioCopy { t with sleeps := t.sleeps + 1 } (.failed c d e1)).2
      hr (by omega)
      (fun j hj => by
        have := hfail (j + 1) (by omega)
        rwa [show next + (j + 1) = next + 1 + j by omega] at this)
      (by rwa [show next + (m + 1) = next + 1 + m by omega] at hok)
    refine ⟨t1, ?_⟩
    simp only [copyRetryLoop, he1, hc, ioCopy_failed_err]
    simp only [Bool.false_eq_true, if_false]
    rw [ht1]
    congr 1
    omega

/-- Result of `UploadWithRetry` when, after a successful `Sync` and `Seek`, the first `f`
copies fail with retryable errors and copy number `f` completes (`f ≤ 10`): nil when the
completing copy is the initial one or one of the first nine retries, the too-many-attempts
error when it is the tenth retry. -/
theorem UploadWithRetry_after_failures (env : StreamEnv) (t0 : Transfer) (k f : Nat)
    (hsync : env.sync = .ok k) (hseek : env.seekErr = none) (hf : f ≤ 10)
    (hfail : ∀ j, j < f → ∃ c d e, env.copy j = .failed c d e ∧ e.retryable)
    (hok : env.copy f = .complete) :
    (UploadWithRetry env t0).1 = if f = 10 then some errTooManyAttempts else none := by
  cases f with
  | zero =>
    simp [UploadWithRetry, hsync, hseek, hok, ioCopy_complete_err, copyRetryLoop]
  | succ m =>
    obtain ⟨c, d, e, hc, he⟩ := hfail 0 (by omega)
    obtain ⟨t1, ht1⟩ := copyRetryLoop_after_failures env.copy m 10 1 e
      (ioCopy { t0 with confirmed := k, srcPos := k } (.failed c d e)).2 he (by omega)
      (fun j hj => by
        have := hfail (j + 1) (by omega)
        rwa [show j + 1 = 1 + j by omega] at this)
      (by rwa [show m + 1 = 1 + m by omega] at hok)
    simp only [UploadWithRetry, hsync, hseek, hc, ioCopy_failed_err, ht1]
    by_cases h10 : m + 1 = 10
    · simp [h10]
    · have h9 : ¬ 9 - m = 0 := by omega
      simp [h10, h9]

/-- Claim C7 on a run whose first copy fails with a network error after reading two source
bytes of which one was confirmed: the retry starts reading the source at position 2 while the
confirmed offset is 1; the source is not repositioned between the attempts. -/
theorem retry_copy_starts_at_local_position :
    (UploadWithRetry ⟨.ok 0, none, lossyThenComplete⟩ threeBytes).2.starts =
      [(0, 0), (2, 1)] := by
  decide

/-- Claim C10 on a run whose initial copy and first nine retries fail with a network error and
whose tenth retry completes: all eleven copies are made, the whole source is handed to the
stream, the last copy returned nil, and `UploadWithRetry` returns the too-many-attempts error. -/
theorem success_on_tenth_retry_reported_as_failure :
    (UploadWithRetry ⟨.ok 0, none, failTenThenComplete⟩ threeBytes).1 =
      some errTooManyAttempts ∧
    (UploadWithRetry ⟨.ok 0, none, failTenThenComplete⟩ threeBytes).2.starts.length = 11 ∧
    (UploadWithRetry ⟨.ok 0, none, failTenThenComplete⟩ threeBytes).2.sent = [10, 20, 30] ∧
    failTenThenComplete 10 = .complete := by
  decide

end Laser
